import Mathlib

/-!
Verification of the Banana World canvas application (src/App.tsx and
src/services/geminiService.ts) against its natural-language specification.

Numeric model: JavaScript numbers are modelled as exact rationals, and image
pixel data (8-bit RGBA channel values, squared color distances, pixel
coordinates) as integers, since every quantity the verified code computes on
them is integral.

The file is organised as definitions first (shallow embedding of the
application code), then theorems.
-/

namespace BananaWorld

/-! ## Constants (src/App.tsx lines 34-43) -/

def IMAGE_WIDTH : ℚ := 375

def COLOR_DISTANCE_THRESHOLD : Int := 20

def MOVE_AMOUNT : ℚ := 25

def MIN_WIDTH : ℚ := 50

def MAX_WIDTH : ℚ := 1000

def MIN_SCALE : ℚ := 1/5

def MAX_SCALE : ℚ := 3

/-! ## View transform and coordinate conversions

The ViewTransform state (scale, offsetX, offsetY) from src/App.tsx line 214.
The screen-to-world conversion is the expression at lines 665-666 of
getImageAtPosition; the world-to-screen conversion is the expression at lines
1168-1169 of actionBarPosition.
-/

structure ViewTransform where
  scale : ℚ
  offsetX : ℚ
  offsetY : ℚ
deriving DecidableEq

def screenToWorld (vt : ViewTransform) (p : ℚ × ℚ) : ℚ × ℚ :=
  ((p.1 - vt.offsetX) / vt.scale, (p.2 - vt.offsetY) / vt.scale)

def worldToScreen (vt : ViewTransform) (p : ℚ × ℚ) : ℚ × ℚ :=
  (p.1 * vt.scale + vt.offsetX, p.2 * vt.scale + vt.offsetY)

/-! ## Canvas wheel zoom (src/App.tsx lines 783-797, handleWheel, else-branch)

The branch taken when the wheel event hits empty canvas (no object under the
cursor, not dragging, not panning): the scale is multiplied or divided by
1.1 according to the wheel direction, clamped into [MIN_SCALE, MAX_SCALE],
and the offset is recomputed from the world point under the cursor.
-/

def clampScale (s : ℚ) : ℚ :=
  max MIN_SCALE (min MAX_SCALE s)

def handleWheelCanvasZoom (vt : ViewTransform) (x y deltaY : ℚ) : ViewTransform :=
  let scaleAmount : ℚ := 11/10
  let currentScale := vt.scale
  let newScaleUnclamped := if deltaY < 0 then currentScale * scaleAmount else currentScale / scaleAmount
  let newScale := clampScale newScaleUnclamped
  let worldX := (x - vt.offsetX) / currentScale
  let worldY := (y - vt.offsetY) / currentScale
  { scale := newScale, offsetX := x - worldX * newScale, offsetY := y - worldY * newScale }

/-! ## Object scaling operations (src/App.tsx lines 764-782 and 851-862)

Wheel scaling of an object multiplies its width by (1 plus or minus 0.1) and
clamps into [MIN_WIDTH, MAX_WIDTH]; an object pinch multiplies the width the
object had at gesture start by the live touch-distance ratio and clamps the
same way.  Both clamp with the same pair of sequential comparisons, modelled
by clampWidth.
-/

def clampWidth (w : ℚ) : ℚ :=
  let w1 := if w < MIN_WIDTH then MIN_WIDTH else w
  if w1 > MAX_WIDTH then MAX_WIDTH else w1

inductive ScaleOp where
  | wheelStep (zoomIn : Bool)
  | pinch (r : ℚ)

def applyScaleOp (w : ℚ) : ScaleOp → ℚ
  | .wheelStep zoomIn =>
      let scaleDirection : ℚ := if zoomIn then 1 else -1
      let scaleFactor := 1 + scaleDirection * (1/10)
      clampWidth (w * scaleFactor)
  | .pinch r => clampWidth (w * r)

/-! ## Transparency processor (src/App.tsx lines 70-143)

A decoded raster image is its pixel grid: width, height, and an RGBA value
for each coordinate (the flat data array of the source, with
data[(y*width+x)*4 + c] modelled as a channel of pix x y).  The processor
reads the background color from the top-left pixel, zeroes the alpha of every
pixel whose squared Euclidean RGB distance to it is strictly below the
squared threshold, then scans the grid row by row maintaining
minX/minY/maxX/maxY over the pixels whose (post-keying) alpha is positive,
exactly as the two passes of processImageForTransparency do.  The threshold
is kept as a parameter so that the default pipeline is the instance at
COLOR_DISTANCE_THRESHOLD.
-/

structure RGBA where
  r : Int
  g : Int
  b : Int
  a : Int
deriving DecidableEq

structure Img where
  width : Nat
  height : Nat
  pix : Nat → Nat → RGBA

structure BBox where
  x : Int
  y : Int
  width : Int
  height : Int
deriving DecidableEq

def distanceSquared (p bg : RGBA) : Int :=
  (p.r - bg.r) * (p.r - bg.r) + (p.g - bg.g) * (p.g - bg.g) + (p.b - bg.b) * (p.b - bg.b)

def keyPixel (t : Int) (img : Img) (x y : Nat) : RGBA :=
  let bg := img.pix 0 0
  let p := img.pix x y
  if distanceSquared p bg < t * t then { p with a := 0 } else p

structure BAcc where
  minX : Int
  minY : Int
  maxX : Int
  maxY : Int

def bstep (surv : Nat × Nat → Bool) (acc : BAcc) (p : Nat × Nat) : BAcc :=
  if surv p then
    { minX := min acc.minX (p.1 : Int), minY := min acc.minY (p.2 : Int),
      maxX := max acc.maxX (p.1 : Int), maxY := max acc.maxY (p.2 : Int) }
  else acc

def coordList (w : Nat) : Nat → List (Nat × Nat)
  | 0 => []
  | h + 1 => coordList w h ++ (List.range w).map (fun x => (x, h))

def boundsAcc (surv : Nat × Nat → Bool) (w h : Nat) : BAcc :=
  (coordList w h).foldl (bstep surv) ⟨(w : Int), (h : Int), -1, -1⟩

def computeBounds (surv : Nat × Nat → Bool) (w h : Nat) : BBox :=
  let acc := boundsAcc surv w h
  if acc.minX ≤ acc.maxX ∧ acc.minY ≤ acc.maxY then
    ⟨acc.minX, acc.minY, acc.maxX - acc.minX + 1, acc.maxY - acc.minY + 1⟩
  else ⟨0, 0, (w : Int), (h : Int)⟩

def processWithThreshold (t : Int) (img : Img) : Img × BBox :=
  ( { width := img.width, height := img.height, pix := fun x y => keyPixel t img x y },
    computeBounds (fun p => decide (0 < (keyPixel t img p.1 p.2).a)) img.width img.height )

def processImageForTransparency (img : Img) : Img × BBox :=
  processWithThreshold COLOR_DISTANCE_THRESHOLD img

/-- A pixel coordinate that lies inside the image and is non-transparent in
the output of processing with threshold t. -/
def survivesAt (t : Int) (img : Img) (p : Nat × Nat) : Prop :=
  p.1 < img.width ∧ p.2 < img.height ∧ 0 < ((processWithThreshold t img).1.pix p.1 p.2).a

instance (t : Int) (img : Img) (p : Nat × Nat) : Decidable (survivesAt t img p) := by
  unfold survivesAt
  infer_instance

/-- Containment of axis-aligned rectangles given as x, y, width, height:
outer contains inner. -/
def BBox.contains (outer inner : BBox) : Prop :=
  outer.x ≤ inner.x ∧ inner.x + inner.width ≤ outer.x + outer.width ∧
  outer.y ≤ inner.y ∧ inner.y + inner.height ≤ outer.y + outer.height

instance (outer inner : BBox) : Decidable (BBox.contains outer inner) := by
  unfold BBox.contains
  infer_instance

/-- Scalar projection of the bounding-box fold, used to reason about the four
accumulator components independently. -/
def sfold (comb : Int → Int → Int) (g : Nat × Nat → Int) (surv : Nat × Nat → Bool)
    (L : List (Nat × Nat)) (m : Int) : Int :=
  L.foldl (fun m p => if surv p then comb m (g p) else m) m

/-! ## Scene model (src/App.tsx lines 45-63, ProcessedImage)

The fields of a placed object that the verified interaction logic reads:
identity, world-space geometry, generation flag, the processed bitmap (with
its native pixel size, read by the hit test as processedImage.width/height),
content bounds in that native pixel space, and the flags that other claims
mention.  A processed image is absent (null) until generation completes.
-/

structure PImage where
  width : ℚ
  height : ℚ
deriving DecidableEq

structure RectQ where
  x : ℚ
  y : ℚ
  width : ℚ
  height : ℚ
deriving DecidableEq

structure PlacedObject where
  id : Int
  x : ℚ
  y : ℚ
  width : ℚ
  height : ℚ
  isGenerating : Bool
  processedImage : Option PImage
  contentBounds : RectQ
  flippedHorizontally : Bool
  showOriginal : Bool
deriving DecidableEq

/-! ## Hit testing (src/App.tsx lines 664-697, getImageAtPosition)

The source walks the images array from the last index down to 0 (reverse
z-order).  An object whose rectangular extent contains the world point is a
hit if it is still generating; otherwise, if it has a processed image, the
point must additionally fall inside the content bounds scaled from the
processed image's native pixel space to display space; in every other case
the loop keeps searching.
-/

def inRect (img : PlacedObject) (wx wy : ℚ) : Prop :=
  img.x ≤ wx ∧ wx ≤ img.x + img.width ∧ img.y ≤ wy ∧ wy ≤ img.y + img.height

instance (img : PlacedObject) (wx wy : ℚ) : Decidable (inRect img wx wy) := by
  unfold inRect
  infer_instance

def scaledContentBounds (img : PlacedObject) (pimg : PImage) : RectQ :=
  let scaleX := img.width / pimg.width
  let scaleY := img.height / pimg.height
  ⟨img.contentBounds.x * scaleX, img.contentBounds.y * scaleY,
   img.contentBounds.width * scaleX, img.contentBounds.height * scaleY⟩

def inScaledContent (img : PlacedObject) (pimg : PImage) (wx wy : ℚ) : Prop :=
  let localX := wx - img.x
  let localY := wy - img.y
  let sb := scaledContentBounds img pimg
  sb.x ≤ localX ∧ localX ≤ sb.x + sb.width ∧ sb.y ≤ localY ∧ localY ≤ sb.y + sb.height

instance (img : PlacedObject) (pimg : PImage) (wx wy : ℚ) :
    Decidable (inScaledContent img pimg wx wy) := by
  unfold inScaledContent
  infer_instance

def hitTestWorld (wx wy : ℚ) : List PlacedObject → Option PlacedObject
  | [] => none
  | img :: rest =>
    if inRect img wx wy then
      if img.isGenerating then some img
      else
        match img.processedImage with
        | some pimg =>
            if inScaledContent img pimg wx wy then some img
            else hitTestWorld wx wy rest
        | none => hitTestWorld wx wy rest
    else hitTestWorld wx wy rest

def getImageAtPosition (images : List PlacedObject) (vt : ViewTransform)
    (screenX screenY : ℚ) : Option PlacedObject :=
  let worldX := (screenX - vt.offsetX) / vt.scale
  let worldY := (screenY - vt.offsetY) / vt.scale
  hitTestWorld worldX worldY images.reverse

/-! ## Deletion and asynchronous completion (src/App.tsx lines 925-931 and 504-531)

handleDeleteSelected replaces the images array by its filter keeping the
objects whose id differs from the selected one.  A generation completion for
object id maps over the array and rebuilds only the entry with that id
(generateFromImage and generateFromText, success path); the rebuilding
function is abstract here because the claim is about the id-keyed guard.
-/

def handleDeleteSelected (images : List PlacedObject) (selectedId : Int) : List PlacedObject :=
  images.filter (fun img => img.id != selectedId)

def applyCompletion (images : List PlacedObject) (id : Int)
    (f : PlacedObject → PlacedObject) : List PlacedObject :=
  images.map (fun img => if img.id == id then f img else img)

/-! ## Arrow-key movement (src/App.tsx lines 1088-1116, handleKeyDown)

When no text field is focused, the selected id resolves to an object, and
that object is not generating, an arrow key moves it by
MOVE_AMOUNT / viewTransform.scale along one axis, rebuilding only its x and y.
-/

inductive ArrowKey where
  | up
  | down
  | left
  | right
deriving DecidableEq

def handleArrowMove (images : List PlacedObject) (selectedId : Int) (scale : ℚ)
    (key : ArrowKey) : List PlacedObject :=
  match images.find? (fun img => img.id == selectedId) with
  | none => images
  | some selectedImg =>
    if selectedImg.isGenerating then images
    else
      let moveStep := MOVE_AMOUNT / scale
      let newX := match key with
        | .left => selectedImg.x - moveStep
        | .right => selectedImg.x + moveStep
        | _ => selectedImg.x
      let newY := match key with
        | .up => selectedImg.y - moveStep
        | .down => selectedImg.y + moveStep
        | _ => selectedImg.y
      images.map (fun img => if img.id == selectedId then { img with x := newX, y := newY } else img)

/-- Signed x displacement of one arrow-key press at a given view scale. -/
def arrowDX (key : ArrowKey) (scale : ℚ) : ℚ :=
  match key with
  | .left => -(MOVE_AMOUNT / scale)
  | .right => MOVE_AMOUNT / scale
  | _ => 0

/-- Signed y displacement of one arrow-key press at a given view scale. -/
def arrowDY (key : ArrowKey) (scale : ℚ) : ℚ :=
  match key with
  | .up => -(MOVE_AMOUNT / scale)
  | .down => MOVE_AMOUNT / scale
  | _ => 0

/-! ## Remix suggestions (src/services/geminiService.ts lines 108-156)

getRemixSuggestions runs two fallible steps before its try/catch: the
API_KEY presence check at lines 109-111, whose throw is not guarded, and the
awaited fileToBase64 at line 113, whose rejection is not guarded either;
only the model request plus JSON parsing from line 123 on sit inside the
try, whose catch-all returns the empty list.  The environment of one call
records whether the key is configured, whether the file read resolves, and
the outcome of the guarded request plus parse: either a caught failure, or a
parsed JSON object whose prompts field is a list of strings when present and
an array (none models a missing or non-array field).  On success with a
nonempty list the code returns prompts.slice(0, 5).  Errors that escape to
the caller are the Except.error results.
-/

inductive SuggestionResponse where
  | failure
  | parsed (prompts : Option (List String))
deriving DecidableEq

structure SuggestionEnv where
  apiKeyPresent : Bool
  fileReadOk : Bool
  response : SuggestionResponse
deriving DecidableEq

def getRemixSuggestions (env : SuggestionEnv) : Except String (List String) :=
  if !env.apiKeyPresent then
    Except.error "API_KEY environment variable not set. Please ensure it's configured."
  else if !env.fileReadOk then
    Except.error "fileToBase64 rejected"
  else
    match env.response with
    | .failure => Except.ok []
    | .parsed none => Except.ok []
    | .parsed (some prompts) => Except.ok (if prompts.length > 0 then prompts.take 5 else [])

/-! ## Horizontal flip (src/App.tsx lines 947-959, handleFlipSelected)

Only the renderer reads flippedHorizontally (drawCanvas lines 340-349);
clearFlip erases the flag so that flip-insensitivity of the hit test can be
stated as equality of results up to this field.
-/

def clearFlip (img : PlacedObject) : PlacedObject :=
  { img with flippedHorizontally := false }

/-! ## Concrete fixtures used by witnesses and counterexamples -/

/-- Test image, 2 by 2: background color black everywhere except the pixel
at (1,1), which is far from the background color. -/
def testImg : Img where
  width := 2
  height := 2
  pix := fun x y => if x = 1 ∧ y = 1 then ⟨100, 0, 0, 255⟩ else ⟨0, 0, 0, 255⟩

/-- Counterexample image for threshold monotonicity, 3 by 1: the middle pixel
is at squared distance 484 from the background (survives threshold 20, is
removed at threshold 30), the right pixel at squared distance 10000
(survives both). -/
def ceImg : Img where
  width := 3
  height := 1
  pix := fun x _ =>
    if x = 1 then ⟨22, 0, 0, 255⟩ else if x = 2 then ⟨100, 0, 0, 255⟩ else ⟨0, 0, 0, 255⟩

/-- A completed sample object of display size 100 by 100 over a 10 by 10
processed bitmap whose content bounds are the central 4 by 4 pixel block
(display region [30,70] in both axes). -/
def sampleObj : PlacedObject where
  id := 1
  x := 0
  y := 0
  width := 100
  height := 100
  isGenerating := false
  processedImage := some ⟨10, 10⟩
  contentBounds := ⟨3, 3, 4, 4⟩
  flippedHorizontally := false
  showOriginal := false

/-- The same sample object while still generating (no processed image). -/
def sampleGen : PlacedObject :=
  { sampleObj with id := 2, isGenerating := true, processedImage := none }

/-! # Theorems -/

/-! ## Clamping of object widths -/

lemma clampWidth_mem (w : ℚ) : MIN_WIDTH ≤ clampWidth w ∧ clampWidth w ≤ MAX_WIDTH := by
  simp only [clampWidth, MIN_WIDTH, MAX_WIDTH]
  split_ifs <;> constructor <;> linarith

lemma applyScaleOp_mem (w : ℚ) (op : ScaleOp) :
    MIN_WIDTH ≤ applyScaleOp w op ∧ applyScaleOp w op ≤ MAX_WIDTH := by
  cases op <;> exact clampWidth_mem _

/-- C3: for every view transform whose scale lies in [MIN_SCALE, MAX_SCALE]
(hence is nonzero) and every point p, converting p from world space to screen
space and back yields exactly p. -/
theorem screenToWorld_worldToScreen_inverse (vt : ViewTransform) (p : ℚ × ℚ)
    (hlo : MIN_SCALE ≤ vt.scale) (hhi : vt.scale ≤ MAX_SCALE) :
    screenToWorld vt (worldToScreen vt p) = p := by
  have hs : vt.scale ≠ 0 := by
    have : (0:ℚ) < vt.scale := lt_of_lt_of_le (by norm_num [MIN_SCALE]) hlo
    exact ne_of_gt this
  unfold screenToWorld worldToScreen
  field_simp

/-- Witness for C3 at scale 1, offset (5, -3), point (2, 7). -/
theorem screenToWorld_worldToScreen_inverse_witness :
    screenToWorld ⟨1, 5, -3⟩ (worldToScreen ⟨1, 5, -3⟩ (2, 7)) = (2, 7) :=
  screenToWorld_worldToScreen_inverse ⟨1, 5, -3⟩ (2, 7)
    (by norm_num [MIN_SCALE]) (by norm_num [MAX_SCALE])

/-- C4: for every wheel zoom over empty canvas at screen point (x, y), any
world point w that mapped to (x, y) under the old view transform (whose scale
is in the valid range) still maps to (x, y) under the new view transform,
including when the new scale got clamped. -/
theorem handleWheelCanvasZoom_anchor (vt : ViewTransform) (x y deltaY : ℚ) (w : ℚ × ℚ)
    (hlo : MIN_SCALE ≤ vt.scale) (hhi : vt.scale ≤ MAX_SCALE)
    (hmap : worldToScreen vt w = (x, y)) :
    worldToScreen (handleWheelCanvasZoom vt x y deltaY) w = (x, y) := by
  have hs : vt.scale ≠ 0 := by
    have : (0:ℚ) < vt.scale := lt_of_lt_of_le (by norm_num [MIN_SCALE]) hlo
    exact ne_of_gt this
  unfold worldToScreen at hmap ⊢
  unfold handleWheelCanvasZoom
  obtain ⟨h1, h2⟩ := Prod.mk.injEq .. ▸ hmap
  simp only [Prod.mk.injEq]
  constructor
  · have hw1 : w.1 = (x - vt.offsetX) / vt.scale := by
      field_simp
      linarith
    rw [hw1]; ring
  · have hw2 : w.2 = (y - vt.offsetY) / vt.scale := by
      field_simp
      linarith
    rw [hw2]; ring

/-- Witness for C4: zoom in at screen point (10, 20) from the identity
transform; the world point (10, 20) stays under the cursor. -/
theorem handleWheelCanvasZoom_anchor_witness :
    worldToScreen (handleWheelCanvasZoom ⟨1, 0, 0⟩ 10 20 (-1)) (10, 20) = (10, 20) :=
  handleWheelCanvasZoom_anchor ⟨1, 0, 0⟩ 10 20 (-1) (10, 20)
    (by norm_num [MIN_SCALE]) (by norm_num [MAX_SCALE]) (by norm_num [worldToScreen])

/-- C5: starting from a width in [MIN_WIDTH, MAX_WIDTH], any finite sequence
of object scale operations (wheel steps of plus or minus 10 percent and pinch
ratio scalings) leaves the width in [MIN_WIDTH, MAX_WIDTH]; as every prefix of
a sequence is itself a sequence, the width is in range after every operation. -/
theorem width_stays_clamped (w0 : ℚ) (ops : List ScaleOp)
    (h1 : MIN_WIDTH ≤ w0) (h2 : w0 ≤ MAX_WIDTH) :
    MIN_WIDTH ≤ ops.foldl applyScaleOp w0 ∧ ops.foldl applyScaleOp w0 ≤ MAX_WIDTH := by
  induction ops generalizing w0 with
  | nil => exact ⟨h1, h2⟩
  | cons op rest ih =>
      have h := applyScaleOp_mem w0 op
      exact ih (applyScaleOp w0 op) h.1 h.2

/-- Witness for C5: width 100 after one zoom-in wheel step and one pinch with
ratio 20 is still within bounds. -/
theorem width_stays_clamped_witness :
    MIN_WIDTH ≤ [ScaleOp.wheelStep true, ScaleOp.pinch 20].foldl applyScaleOp 100 ∧
    [ScaleOp.wheelStep true, ScaleOp.pinch 20].foldl applyScaleOp 100 ≤ MAX_WIDTH :=
  width_stays_clamped 100 [ScaleOp.wheelStep true, ScaleOp.pinch 20]
    (by norm_num [MIN_WIDTH]) (by norm_num [MAX_WIDTH])

/-! ## Fold lemmas for the bounding-box pass -/

lemma bfold_minX (surv : Nat × Nat → Bool) (L : List (Nat × Nat)) (acc : BAcc) :
    (L.foldl (bstep surv) acc).minX = sfold min (fun p => (p.1 : Int)) surv L acc.minX := by
  induction L generalizing acc with
  | nil => rfl
  | cons q L ih =>
      simp only [List.foldl_cons, sfold] at ih ⊢
      rw [ih]
      by_cases hq : surv q <;> simp [bstep, hq]

lemma bfold_minY (surv : Nat × Nat → Bool) (L : List (Nat × Nat)) (acc : BAcc) :
    (L.foldl (bstep surv) acc).minY = sfold min (fun p => (p.2 : Int)) surv L acc.minY := by
  induction L generalizing acc with
  | nil => rfl
  | cons q L ih =>
      simp only [List.foldl_cons, sfold] at ih ⊢
      rw [ih]
      by_cases hq : surv q <;> simp [bstep, hq]

lemma bfold_maxX (surv : Nat × Nat → Bool) (L : List (Nat × Nat)) (acc : BAcc) :
    (L.foldl (bstep surv) acc).maxX = sfold max (fun p => (p.1 : Int)) surv L acc.maxX := by
  induction L generalizing acc with
  | nil => rfl
  | cons q L ih =>
      simp only [List.foldl_cons, sfold] at ih ⊢
      rw [ih]
      by_cases hq : surv q <;> simp [bstep, hq]

lemma bfold_maxY (surv : Nat × Nat → Bool) (L : List (Nat × Nat)) (acc : BAcc) :
    (L.foldl (bstep surv) acc).maxY = sfold max (fun p => (p.2 : Int)) surv L acc.maxY := by
  induction L generalizing acc with
  | nil => rfl
  | cons q L ih =>
      simp only [List.foldl_cons, sfold] at ih ⊢
      rw [ih]
      by_cases hq : surv q <;> simp [bstep, hq]

/-- The scalar fold stays rel-below its starting value and rel-below every
surviving entry, for any combinator that is rel-below both arguments. -/
lemma sfold_rel (rel : Int → Int → Prop)
    (hrefl : ∀ a, rel a a) (htrans : ∀ a b c, rel a b → rel b c → rel a c)
    (comb : Int → Int → Int)
    (h1 : ∀ a b, rel (comb a b) a) (h2 : ∀ a b, rel (comb a b) b)
    (g : Nat × Nat → Int) (surv : Nat × Nat → Bool) (L : List (Nat × Nat)) (m : Int) :
    rel (sfold comb g surv L m) m ∧
      ∀ p ∈ L, surv p = true → rel (sfold comb g surv L m) (g p) := by
  induction L generalizing m with
  | nil => exact ⟨hrefl m, by simp⟩
  | cons q L ih =>
      have hstep : rel (if surv q then comb m (g q) else m) m := by
        by_cases hq : surv q <;> simp [hq, h1, hrefl]
      have ihq := ih (if surv q then comb m (g q) else m)
      refine ⟨htrans _ _ _ ihq.1 hstep, ?_⟩
      intro p hp hps
      rcases List.mem_cons.mp hp with rfl | hp
      · have : rel (if surv p then comb m (g p) else m) (g p) := by
          simp [hps, h2]
        exact htrans _ _ _ ihq.1 this
      · exact ihq.2 p hp hps

/-- The scalar fold either keeps its starting value or equals g of some
surviving entry, for any combinator that always returns one of its arguments. -/
lemma sfold_attains (comb : Int → Int → Int)
    (hc : ∀ a b, comb a b = a ∨ comb a b = b)
    (g : Nat × Nat → Int) (surv : Nat × Nat → Bool) (L : List (Nat × Nat)) (m : Int) :
    sfold comb g surv L m = m ∨
      ∃ p ∈ L, surv p = true ∧ sfold comb g surv L m = g p := by
  induction L generalizing m with
  | nil => exact Or.inl rfl
  | cons q L ih =>
      have hq' : sfold comb g surv (q :: L) m
          = sfold comb g surv L (if surv q then comb m (g q) else m) := rfl
      rcases ih (if surv q then comb m (g q) else m) with h | ⟨p, hp, hps, he⟩
      · rw [hq', h]
        by_cases hq : surv q
        · simp only [hq, if_true]
          rcases hc m (g q) with h' | h'
          · exact Or.inl h'
          · exact Or.inr ⟨q, List.mem_cons_self q L, hq, h'⟩
        · simp only [hq, if_false]
          exact Or.inl rfl
      · exact Or.inr ⟨p, List.mem_cons_of_mem q hp, hps, hq' ▸ he⟩

lemma mem_coordList {w : Nat} : ∀ {h : Nat} {p : Nat × Nat},
    p ∈ coordList w h ↔ p.1 < w ∧ p.2 < h := by
  intro h
  induction h with
  | zero => intro p; simp [coordList]
  | succ h ih =>
      intro p
      simp only [coordList, List.mem_append, List.mem_map, List.mem_range, ih]
      constructor
      · rintro (⟨h1, h2⟩ | ⟨x, hx, rfl⟩)
        · exact ⟨h1, Nat.lt_succ_of_lt h2⟩
        · exact ⟨hx, Nat.lt_succ_self _⟩
      · rintro ⟨h1, h2⟩
        rcases Nat.lt_succ_iff_lt_or_eq.mp h2 with h2 | h2
        · exact Or.inl ⟨h1, h2⟩
        · right
          exact ⟨p.1, h1, by cases p; simp_all⟩

/-- The four accumulator components after the bounding-box pass: they bound
every surviving in-range coordinate, and each one is either still its initial
value or attained by a surviving in-range coordinate. -/
lemma boundsAcc_spec (surv : Nat × Nat → Bool) (w h : Nat) :
    (∀ p : Nat × Nat, p.1 < w → p.2 < h → surv p = true →
      (boundsAcc surv w h).minX ≤ (p.1 : Int) ∧ (boundsAcc surv w h).minY ≤ (p.2 : Int) ∧
      (p.1 : Int) ≤ (boundsAcc surv w h).maxX ∧ (p.2 : Int) ≤ (boundsAcc surv w h).maxY) ∧
    ((boundsAcc surv w h).minX = (w : Int) ∨
      ∃ p : Nat × Nat, p.1 < w ∧ p.2 < h ∧ surv p = true ∧ (boundsAcc surv w h).minX = (p.1 : Int)) ∧
    ((boundsAcc surv w h).minY = (h : Int) ∨
      ∃ p : Nat × Nat, p.1 < w ∧ p.2 < h ∧ surv p = true ∧ (boundsAcc surv w h).minY = (p.2 : Int)) ∧
    ((boundsAcc surv w h).maxX = -1 ∨
      ∃ p : Nat × Nat, p.1 < w ∧ p.2 < h ∧ surv p = true ∧ (boundsAcc surv w h).maxX = (p.1 : Int)) ∧
    ((boundsAcc surv w h).maxY = -1 ∨
      ∃ p : Nat × Nat, p.1 < w ∧ p.2 < h ∧ surv p = true ∧ (boundsAcc surv w h).maxY = (p.2 : Int)) := by
  have eminX : (boundsAcc surv w h).minX
      = sfold min (fun p => (p.1 : Int)) surv (coordList w h) (w : Int) := by
    unfold boundsAcc; rw [bfold_minX]
  have eminY : (boundsAcc surv w h).minY
      = sfold min (fun p => (p.2 : Int)) surv (coordList w h) (h : Int) := by
    unfold boundsAcc; rw [bfold_minY]
  have emaxX : (boundsAcc surv w h).maxX
      = sfold max (fun p => (p.1 : Int)) surv (coordList w h) (-1) := by
    unfold boundsAcc; rw [bfold_maxX]
  have emaxY : (boundsAcc surv w h).maxY
      = sfold max (fun p => (p.2 : Int)) surv (coordList w h) (-1) := by
    unfold boundsAcc; rw [bfold_maxY]
  have hminXr := sfold_rel (· ≤ ·) (fun a => le_refl a) (fun a b c => le_trans)
    min (fun a b => min_le_left a b) (fun a b => min_le_right a b)
    (fun p => (p.1 : Int)) surv (coordList w h) (w : Int)
  have hminYr := sfold_rel (· ≤ ·) (fun a => le_refl a) (fun a b c => le_trans)
    min (fun a b => min_le_left a b) (fun a b => min_le_right a b)
    (fun p => (p.2 : Int)) surv (coordList w h) (h : Int)
  have hmaxXr := sfold_rel (fun a b => b ≤ a) (fun a => le_refl a)
    (fun a b c hab hbc => le_trans hbc hab)
    max (fun a b => le_max_left a b) (fun a b => le_max_right a b)
    (fun p => (p.1 : Int)) surv (coordList w h) (-1)
  have hmaxYr := sfold_rel (fun a b => b ≤ a) (fun a => le_refl a)
    (fun a b c hab hbc => le_trans hbc hab)
    max (fun a b => le_max_left a b) (fun a b => le_max_right a b)
    (fun p => (p.2 : Int)) surv (coordList w h) (-1)
  have hminXa := sfold_attains min (fun a b => min_choice a b)
    (fun p => (p.1 : Int)) surv (coordList w h) (w : Int)
  have hminYa := sfold_attains min (fun a b => min_choice a b)
    (fun p => (p.2 : Int)) surv (coordList w h) (h : Int)
  have hmaxXa := sfold_attains max (fun a b => max_choice a b)
    (fun p => (p.1 : Int)) surv (coordList w h) (-1)
  have hmaxYa := sfold_attains max (fun a b => max_choice a b)
    (fun p => (p.2 : Int)) surv (coordList w h) (-1)
  refine ⟨?_, ?_, ?_, ?_, ?_⟩
  · intro p h1 h2 hs
    have hmem : p ∈ coordList w h := mem_coordList.mpr ⟨h1, h2⟩
    exact ⟨eminX ▸ hminXr.2 p hmem hs, eminY ▸ hminYr.2 p hmem hs,
      emaxX ▸ hmaxXr.2 p hmem hs, emaxY ▸ hmaxYr.2 p hmem hs⟩
  · rcases hminXa with h' | ⟨p, hp, hps, he⟩
    · exact Or.inl (eminX ▸ h')
    · have hm := mem_coordList.mp hp
      exact Or.inr ⟨p, hm.1, hm.2, hps, eminX ▸ he⟩
  · rcases hminYa with h' | ⟨p, hp, hps, he⟩
    · exact Or.inl (eminY ▸ h')
    · have hm := mem_coordList.mp hp
      exact Or.inr ⟨p, hm.1, hm.2, hps, eminY ▸ he⟩
  · rcases hmaxXa with h' | ⟨p, hp, hps, he⟩
    · exact Or.inl (emaxX ▸ h')
    · have hm := mem_coordList.mp hp
      exact Or.inr ⟨p, hm.1, hm.2, hps, emaxX ▸ he⟩
  · rcases hmaxYa with h' | ⟨p, hp, hps, he⟩
    · exact Or.inl (emaxY ▸ h')
    · have hm := mem_coordList.mp hp
      exact Or.inr ⟨p, hm.1, hm.2, hps, emaxY ▸ he⟩

lemma computeBounds_pos (surv : Nat × Nat → Bool) (w h : Nat)
    (hcond : (boundsAcc surv w h).minX ≤ (boundsAcc surv w h).maxX ∧
      (boundsAcc surv w h).minY ≤ (boundsAcc surv w h).maxY) :
    computeBounds surv w h =
      ⟨(boundsAcc surv w h).minX, (boundsAcc surv w h).minY,
        (boundsAcc surv w h).maxX - (boundsAcc surv w h).minX + 1,
        (boundsAcc surv w h).maxY - (boundsAcc surv w h).minY + 1⟩ := by
  simp only [computeBounds]
  rw [if_pos hcond]

lemma computeBounds_neg (surv : Nat × Nat → Bool) (w h : Nat)
    (hcond : ¬ ((boundsAcc surv w h).minX ≤ (boundsAcc surv w h).maxX ∧
      (boundsAcc surv w h).minY ≤ (boundsAcc surv w h).maxY)) :
    computeBounds surv w h = ⟨0, 0, (w : Int), (h : Int)⟩ := by
  simp only [computeBounds]
  rw [if_neg hcond]

/-- Full characterization of computeBounds: when some in-range coordinate
survives, the result is the minimal bounding rectangle of the surviving
coordinates (it encloses all of them and each of its four edges is attained);
when none survives, the result is the full extent. -/
lemma computeBounds_spec (surv : Nat × Nat → Bool) (w h : Nat) :
    ((∃ p : Nat × Nat, p.1 < w ∧ p.2 < h ∧ surv p = true) →
      (∀ p : Nat × Nat, p.1 < w → p.2 < h → surv p = true →
        (computeBounds surv w h).x ≤ (p.1 : Int) ∧
        (p.1 : Int) ≤ (computeBounds surv w h).x + (computeBounds surv w h).width - 1 ∧
        (computeBounds surv w h).y ≤ (p.2 : Int) ∧
        (p.2 : Int) ≤ (computeBounds surv w h).y + (computeBounds surv w h).height - 1) ∧
      (∃ p : Nat × Nat, p.1 < w ∧ p.2 < h ∧ surv p = true ∧
        (p.1 : Int) = (computeBounds surv w h).x) ∧
      (∃ p : Nat × Nat, p.1 < w ∧ p.2 < h ∧ surv p = true ∧
        (p.1 : Int) = (computeBounds surv w h).x + (computeBounds surv w h).width - 1) ∧
      (∃ p : Nat × Nat, p.1 < w ∧ p.2 < h ∧ surv p = true ∧
        (p.2 : Int) = (computeBounds surv w h).y) ∧
      (∃ p : Nat × Nat, p.1 < w ∧ p.2 < h ∧ surv p = true ∧
        (p.2 : Int) = (computeBounds surv w h).y + (computeBounds surv w h).height - 1)) ∧
    ((¬ ∃ p : Nat × Nat, p.1 < w ∧ p.2 < h ∧ surv p = true) →
      computeBounds surv w h = ⟨0, 0, (w : Int), (h : Int)⟩) := by
  obtain ⟨hencl, hminX, hminY, hmaxX, hmaxY⟩ := boundsAcc_spec surv w h
  constructor
  · rintro ⟨p0, h1, h2, hs⟩
    have hp0 := hencl p0 h1 h2 hs
    have hcond : (boundsAcc surv w h).minX ≤ (boundsAcc surv w h).maxX ∧
        (boundsAcc surv w h).minY ≤ (boundsAcc surv w h).maxY :=
      ⟨le_trans hp0.1 hp0.2.2.1, le_trans hp0.2.1 hp0.2.2.2⟩
    rw [computeBounds_pos surv w h hcond]
    refine ⟨?_, ?_, ?_, ?_, ?_⟩
    · intro p hpw hph hps
      have hp := hencl p hpw hph hps
      refine ⟨hp.1, ?_, hp.2.1, ?_⟩
      · have := hp.2.2.1
        simp only
        omega
      · have := hp.2.2.2
        simp only
        omega
    · rcases hminX with h' | ⟨p, hw', hh', hs', he⟩
      · exfalso
        have := hp0.1
        rw [h'] at this
        have hcast : (p0.1 : Int) < (w : Int) := by exact_mod_cast h1
        omega
      · exact ⟨p, hw', hh', hs', by simp only; omega⟩
    · rcases hmaxX with h' | ⟨p, hw', hh', hs', he⟩
      · exfalso
        have := hp0.2.2.1
        rw [h'] at this
        omega
      · exact ⟨p, hw', hh', hs', by simp only; omega⟩
    · rcases hminY with h' | ⟨p, hw', hh', hs', he⟩
      · exfalso
        have := hp0.2.1
        rw [h'] at this
        have hcast : (p0.2 : Int) < (h : Int) := by exact_mod_cast h2
        omega
      · exact ⟨p, hw', hh', hs', by simp only; omega⟩
    · rcases hmaxY with h' | ⟨p, hw', hh', hs', he⟩
      · exfalso
        have := hp0.2.2.2
        rw [h'] at this
        omega
      · exact ⟨p, hw', hh', hs', by simp only; omega⟩
  · intro hnex
    have e1 : (boundsAcc surv w h).minX = (w : Int) := by
      rcases hminX with h' | ⟨p, hw', hh', hs', he⟩
      · exact h'
      · exact absurd ⟨p, hw', hh', hs'⟩ hnex
    have e3 : (boundsAcc surv w h).maxX = -1 := by
      rcases hmaxX with h' | ⟨p, hw', hh', hs', he⟩
      · exact h'
      · exact absurd ⟨p, hw', hh', hs'⟩ hnex
    apply computeBounds_neg
    rintro ⟨hA, _⟩
    rw [e1, e3] at hA
    omega

lemma survivesAt_iff (t : Int) (img : Img) (p : Nat × Nat) :
    survivesAt t img p ↔
      (p.1 < img.width ∧ p.2 < img.height ∧
        decide (0 < (keyPixel t img p.1 p.2).a) = true) := by
  simp [survivesAt, processWithThreshold]

/-- Bounding-box part of the transparency processor, for any threshold: when
some pixel survives, the returned rectangle is the minimal bounding rectangle
of the surviving pixels; otherwise it is the full image extent. -/
lemma processWithThreshold_bounds (t : Int) (img : Img) :
    ((∃ p : Nat × Nat, survivesAt t img p) →
      (∀ p : Nat × Nat, survivesAt t img p →
        (processWithThreshold t img).2.x ≤ (p.1 : Int) ∧
        (p.1 : Int) ≤ (processWithThreshold t img).2.x + (processWithThreshold t img).2.width - 1 ∧
        (processWithThreshold t img).2.y ≤ (p.2 : Int) ∧
        (p.2 : Int) ≤ (processWithThreshold t img).2.y + (processWithThreshold t img).2.height - 1) ∧
      (∃ p : Nat × Nat, survivesAt t img p ∧ (p.1 : Int) = (processWithThreshold t img).2.x) ∧
      (∃ p : Nat × Nat, survivesAt t img p ∧
        (p.1 : Int) = (processWithThreshold t img).2.x + (processWithThreshold t img).2.width - 1) ∧
      (∃ p : Nat × Nat, survivesAt t img p ∧ (p.2 : Int) = (processWithThreshold t img).2.y) ∧
      (∃ p : Nat × Nat, survivesAt t img p ∧
        (p.2 : Int) = (processWithThreshold t img).2.y + (processWithThreshold t img).2.height - 1)) ∧
    ((¬ ∃ p : Nat × Nat, survivesAt t img p) →
      (processWithThreshold t img).2 = ⟨0, 0, (img.width : Int), (img.height : Int)⟩) := by
  have hB : (processWithThreshold t img).2
      = computeBounds (fun q : Nat × Nat => decide (0 < (keyPixel t img q.1 q.2).a))
          img.width img.height := rfl
  have hs := computeBounds_spec (fun q : Nat × Nat => decide (0 < (keyPixel t img q.1 q.2).a))
    img.width img.height
  constructor
  · rintro ⟨p0, hp0⟩
    have hp0' := (survivesAt_iff t img p0).mp hp0
    obtain ⟨hencl, he1, he2, he3, he4⟩ := hs.1 ⟨p0, hp0'⟩
    refine ⟨?_, ?_, ?_, ?_, ?_⟩
    · intro p hp
      have h' := (survivesAt_iff t img p).mp hp
      rw [hB]
      exact hencl p h'.1 h'.2.1 h'.2.2
    · obtain ⟨p, h1, h2, h3, he⟩ := he1
      exact ⟨p, (survivesAt_iff t img p).mpr ⟨h1, h2, h3⟩, hB ▸ he⟩
    · obtain ⟨p, h1, h2, h3, he⟩ := he2
      exact ⟨p, (survivesAt_iff t img p).mpr ⟨h1, h2, h3⟩, hB ▸ he⟩
    · obtain ⟨p, h1, h2, h3, he⟩ := he3
      exact ⟨p, (survivesAt_iff t img p).mpr ⟨h1, h2, h3⟩, hB ▸ he⟩
    · obtain ⟨p, h1, h2, h3, he⟩ := he4
      exact ⟨p, (survivesAt_iff t img p).mpr ⟨h1, h2, h3⟩, hB ▸ he⟩
  · intro hnex
    rw [hB]
    apply hs.2
    rintro ⟨p, h1, h2, h3⟩
    exact hnex ⟨p, (survivesAt_iff t img p).mpr ⟨h1, h2, h3⟩⟩

/-- C1: the transparency processor reads the background color from the
top-left pixel and zeroes the alpha of exactly the pixels whose squared
Euclidean RGB distance to it is below the squared threshold (20 squared by
default), leaving other pixels untouched; when some non-transparent pixel
remains, the returned rectangle is the minimal bounding rectangle of the
remaining non-transparent pixels in source-pixel coordinates (it encloses
them all and each edge is attained); when none remains, it is the full image
extent. -/
theorem processImageForTransparency_correct (img : Img) :
    (∀ x y : Nat,
      (distanceSquared (img.pix x y) (img.pix 0 0)
          < COLOR_DISTANCE_THRESHOLD * COLOR_DISTANCE_THRESHOLD →
        ((processImageForTransparency img).1.pix x y).a = 0) ∧
      (¬ distanceSquared (img.pix x y) (img.pix 0 0)
          < COLOR_DISTANCE_THRESHOLD * COLOR_DISTANCE_THRESHOLD →
        (processImageForTransparency img).1.pix x y = img.pix x y)) ∧
    ((∃ p : Nat × Nat, survivesAt COLOR_DISTANCE_THRESHOLD img p) →
      (∀ p : Nat × Nat, survivesAt COLOR_DISTANCE_THRESHOLD img p →
        (processImageForTransparency img).2.x ≤ (p.1 : Int) ∧
        (p.1 : Int) ≤ (processImageForTransparency img).2.x
          + (processImageForTransparency img).2.width - 1 ∧
        (processImageForTransparency img).2.y ≤ (p.2 : Int) ∧
        (p.2 : Int) ≤ (processImageForTransparency img).2.y
          + (processImageForTransparency img).2.height - 1) ∧
      (∃ p : Nat × Nat, survivesAt COLOR_DISTANCE_THRESHOLD img p ∧
        (p.1 : Int) = (processImageForTransparency img).2.x) ∧
      (∃ p : Nat × Nat, survivesAt COLOR_DISTANCE_THRESHOLD img p ∧
        (p.1 : Int) = (processImageForTransparency img).2.x
          + (processImageForTransparency img).2.width - 1) ∧
      (∃ p : Nat × Nat, survivesAt COLOR_DISTANCE_THRESHOLD img p ∧
        (p.2 : Int) = (processImageForTransparency img).2.y) ∧
      (∃ p : Nat × Nat, survivesAt COLOR_DISTANCE_THRESHOLD img p ∧
        (p.2 : Int) = (processImageForTransparency img).2.y
          + (processImageForTransparency img).2.height - 1)) ∧
    ((¬ ∃ p : Nat × Nat, survivesAt COLOR_DISTANCE_THRESHOLD img p) →
      (processImageForTransparency img).2
        = ⟨0, 0, (img.width : Int), (img.height : Int)⟩) := by
  have hbounds := processWithThreshold_bounds COLOR_DISTANCE_THRESHOLD img
  refine ⟨?_, hbounds.1, hbounds.2⟩
  intro x y
  constructor
  · intro hd
    show (keyPixel COLOR_DISTANCE_THRESHOLD img x y).a = 0
    simp [keyPixel, if_pos hd]
  · intro hd
    show keyPixel COLOR_DISTANCE_THRESHOLD img x y = img.pix x y
    simp [keyPixel, if_neg hd]

/-- Witness for C1 on the concrete 2 by 2 test image: the background-colored
pixel (0,0) comes out transparent, and the sole surviving pixel (1,1) is
enclosed by the returned rectangle. -/
theorem processImageForTransparency_correct_witness :
    ((processImageForTransparency testImg).1.pix 0 0).a = 0 ∧
    (processImageForTransparency testImg).2.x ≤ (1 : Int) ∧
    (1 : Int) ≤ (processImageForTransparency testImg).2.x
      + (processImageForTransparency testImg).2.width - 1 := by
  have h := processImageForTransparency_correct testImg
  have hsurv : survivesAt COLOR_DISTANCE_THRESHOLD testImg (1, 1) := by decide
  have hencl := (h.2.1 ⟨(1, 1), hsurv⟩).1 (1, 1) hsurv
  exact ⟨(h.1 0 0).1 (by decide), hencl.1, hencl.2.1⟩

/-- Counterexample to C2 as stated: with thresholds 20 ≤ 30, the bounding box
computed at the larger threshold does not contain the one computed at the
smaller threshold on ceImg (raising the threshold removed the surviving
middle pixel and the box shrank from x-range [1,2] to [2,2]). -/
theorem threshold_monotone_counterexample :
    (20 : Int) ≤ 30 ∧
    ¬ BBox.contains (processWithThreshold 30 ceImg).2 (processWithThreshold 20 ceImg).2 := by
  constructor
  · decide
  · decide

lemma keyPixel_alpha_pos_iff (t : Int) (img : Img) (x y : Nat) :
    0 < (keyPixel t img x y).a ↔
      (¬ distanceSquared (img.pix x y) (img.pix 0 0) < t * t) ∧ 0 < (img.pix x y).a := by
  simp only [keyPixel]
  split_ifs with hd
  · simp [hd]
  · simp [hd]

/-- C2 (amended): increasing the threshold only removes pixels: for
0 ≤ t1 ≤ t2, every pixel that survives processing at threshold t2 survives at
threshold t1, and whenever some pixel survives at the larger threshold t2,
the bounding box computed with t2 is contained in the bounding box computed
with t1 — increasing the threshold never enlarges the computed bounding box
as long as some pixel survives. -/
theorem threshold_monotone_amended (img : Img) (t1 t2 : Int)
    (h0 : 0 ≤ t1) (h12 : t1 ≤ t2) :
    (∀ p : Nat × Nat, survivesAt t2 img p → survivesAt t1 img p) ∧
    ((∃ p : Nat × Nat, survivesAt t2 img p) →
      BBox.contains (processWithThreshold t1 img).2 (processWithThreshold t2 img).2) := by
  have hsq : t1 * t1 ≤ t2 * t2 := mul_le_mul h12 h12 h0 (le_trans h0 h12)
  have hsub : ∀ p : Nat × Nat, survivesAt t2 img p → survivesAt t1 img p := by
    intro p hp
    obtain ⟨h1, h2, h3⟩ := (survivesAt_iff t2 img p).mp hp
    rw [decide_eq_true_eq, keyPixel_alpha_pos_iff] at h3
    refine (survivesAt_iff t1 img p).mpr ⟨h1, h2, ?_⟩
    rw [decide_eq_true_eq, keyPixel_alpha_pos_iff]
    exact ⟨fun hlt => h3.1 (lt_of_lt_of_le hlt hsq), h3.2⟩
  refine ⟨hsub, ?_⟩
  rintro hex2
  obtain ⟨p0, hp0⟩ := hex2
  have hex1 : ∃ p : Nat × Nat, survivesAt t1 img p := ⟨p0, hsub p0 hp0⟩
  obtain ⟨hencl1, _, _, _, _⟩ := (processWithThreshold_bounds t1 img).1 hex1
  obtain ⟨_, he1, he2, he3, he4⟩ := (processWithThreshold_bounds t2 img).1 ⟨p0, hp0⟩
  obtain ⟨pL, hpL, heL⟩ := he1
  obtain ⟨pR, hpR, heR⟩ := he2
  obtain ⟨pT, hpT, heT⟩ := he3
  obtain ⟨pB, hpB, heB⟩ := he4
  have hL := hencl1 pL (hsub pL hpL)
  have hR := hencl1 pR (hsub pR hpR)
  have hT := hencl1 pT (hsub pT hpT)
  have hB := hencl1 pB (hsub pB hpB)
  refine ⟨?_, ?_, ?_, ?_⟩
  · rw [← heL]; exact hL.1
  · have := hR.2.1
    omega
  · rw [← heT]; exact hT.2.2.1
  · have := hB.2.2.2
    omega

/-- Witness for C2 (amended) at thresholds 0 ≤ 20 ≤ 30 on the test image:
pixel (1,1) survives both, and the box at 30 is contained in the box at 20. -/
theorem threshold_monotone_amended_witness :
    survivesAt 20 testImg (1, 1) ∧
    BBox.contains (processWithThreshold 20 testImg).2 (processWithThreshold 30 testImg).2 := by
  have h := threshold_monotone_amended testImg 20 30 (by decide) (by decide)
  have hsurv : survivesAt 30 testImg (1, 1) := by decide
  exact ⟨h.1 (1, 1) hsurv, h.2 ⟨(1, 1), hsurv⟩⟩

/-! ## Hit-testing step lemmas -/

lemma hitTestWorld_cons_not_inRect {wx wy : ℚ} {img : PlacedObject} {rest : List PlacedObject}
    (h : ¬ inRect img wx wy) :
    hitTestWorld wx wy (img :: rest) = hitTestWorld wx wy rest := by
  simp [hitTestWorld, h]

lemma hitTestWorld_cons_generating {wx wy : ℚ} {img : PlacedObject} {rest : List PlacedObject}
    (hin : inRect img wx wy) (hg : img.isGenerating = true) :
    hitTestWorld wx wy (img :: rest) = some img := by
  simp [hitTestWorld, hin, hg]

lemma hitTestWorld_cons_noimage {wx wy : ℚ} {img : PlacedObject} {rest : List PlacedObject}
    (hin : inRect img wx wy) (hg : img.isGenerating = false)
    (hpi : img.processedImage = none) :
    hitTestWorld wx wy (img :: rest) = hitTestWorld wx wy rest := by
  simp [hitTestWorld, hin, hg, hpi]

lemma hitTestWorld_cons_outside {wx wy : ℚ} {img : PlacedObject} {pimg : PImage}
    {rest : List PlacedObject}
    (hin : inRect img wx wy) (hg : img.isGenerating = false)
    (hpi : img.processedImage = some pimg) (hout : ¬ inScaledContent img pimg wx wy) :
    hitTestWorld wx wy (img :: rest) = hitTestWorld wx wy rest := by
  simp [hitTestWorld, hin, hg, hpi, hout]

lemma hitTestWorld_cons_inside {wx wy : ℚ} {img : PlacedObject} {pimg : PImage}
    {rest : List PlacedObject}
    (hin : inRect img wx wy) (hg : img.isGenerating = false)
    (hpi : img.processedImage = some pimg) (hins : inScaledContent img pimg wx wy) :
    hitTestWorld wx wy (img :: rest) = some img := by
  simp [hitTestWorld, hin, hg, hpi, hins]

lemma hitTestWorld_mem {wx wy : ℚ} {L : List PlacedObject} {r : PlacedObject}
    (h : hitTestWorld wx wy L = some r) : r ∈ L := by
  induction L with
  | nil => simp [hitTestWorld] at h
  | cons img rest ih =>
      by_cases hin : inRect img wx wy
      · cases hg : img.isGenerating with
        | true =>
            rw [hitTestWorld_cons_generating hin hg] at h
            cases Option.some.inj h
            exact List.mem_cons_self _ _
        | false =>
            cases hpi : img.processedImage with
            | none =>
                rw [hitTestWorld_cons_noimage hin hg hpi] at h
                exact List.mem_cons_of_mem _ (ih h)
            | some pimg =>
                by_cases hins : inScaledContent img pimg wx wy
                · rw [hitTestWorld_cons_inside hin hg hpi hins] at h
                  cases Option.some.inj h
                  exact List.mem_cons_self _ _
                · rw [hitTestWorld_cons_outside hin hg hpi hins] at h
                  exact List.mem_cons_of_mem _ (ih h)
      · rw [hitTestWorld_cons_not_inRect hin] at h
        exact List.mem_cons_of_mem _ (ih h)

lemma getImageAtPosition_mem {objs : List PlacedObject} {vt : ViewTransform}
    {sx sy : ℚ} {r : PlacedObject}
    (h : getImageAtPosition objs vt sx sy = some r) : r ∈ objs := by
  unfold getImageAtPosition at h
  exact List.mem_reverse.mp (hitTestWorld_mem h)

/-- C6: hit-testing against the topmost (last-added) object img at the world
image of the screen point: a point inside the rectangular extent but outside
the scaled content bounds skips a completed object (the search continues in
the rest, so the object itself is never returned), while a still-generating
object is returned from its full rectangle; a completed object is returned
whenever the point is inside its scaled content bounds, regardless of the
other objects — reverse z-order makes the last-added object win ties. -/
theorem getImageAtPosition_respects_contentBounds (rest : List PlacedObject)
    (img : PlacedObject) (vt : ViewTransform) (sx sy : ℚ) :
    (∀ pimg : PImage, img.isGenerating = false → img.processedImage = some pimg →
      inRect img ((sx - vt.offsetX) / vt.scale) ((sy - vt.offsetY) / vt.scale) →
      ¬ inScaledContent img pimg ((sx - vt.offsetX) / vt.scale) ((sy - vt.offsetY) / vt.scale) →
      getImageAtPosition (rest ++ [img]) vt sx sy = getImageAtPosition rest vt sx sy ∧
      (img ∉ rest → getImageAtPosition (rest ++ [img]) vt sx sy ≠ some img)) ∧
    (img.isGenerating = true →
      inRect img ((sx - vt.offsetX) / vt.scale) ((sy - vt.offsetY) / vt.scale) →
      getImageAtPosition (rest ++ [img]) vt sx sy = some img) ∧
    (∀ pimg : PImage, img.isGenerating = false → img.processedImage = some pimg →
      inRect img ((sx - vt.offsetX) / vt.scale) ((sy - vt.offsetY) / vt.scale) →
      inScaledContent img pimg ((sx - vt.offsetX) / vt.scale) ((sy - vt.offsetY) / vt.scale) →
      getImageAtPosition (rest ++ [img]) vt sx sy = some img) := by
  have hrev : (rest ++ [img]).reverse = img :: rest.reverse := by simp
  refine ⟨?_, ?_, ?_⟩
  · intro pimg hg hpi hin hout
    have hskip : getImageAtPosition (rest ++ [img]) vt sx sy
        = getImageAtPosition rest vt sx sy := by
      unfold getImageAtPosition
      rw [hrev, hitTestWorld_cons_outside hin hg hpi hout]
    refine ⟨hskip, ?_⟩
    intro hnotmem habs
    rw [hskip] at habs
    exact hnotmem (getImageAtPosition_mem habs)
  · intro hg hin
    unfold getImageAtPosition
    rw [hrev, hitTestWorld_cons_generating hin hg]
  · intro pimg hg hpi hin hins
    unfold getImageAtPosition
    rw [hrev, hitTestWorld_cons_inside hin hg hpi hins]

/-- Witness for C6: with the identity view transform, screen point (10, 10)
lies inside the sample object's rectangle but outside its scaled content
bounds (display region [30,70] squared): the completed object is skipped (and
an empty rest means no hit), while the generating variant is hit there. -/
theorem getImageAtPosition_respects_contentBounds_witness :
    getImageAtPosition [sampleObj] ⟨1, 0, 0⟩ 10 10 = none ∧
    getImageAtPosition [sampleGen] ⟨1, 0, 0⟩ 10 10 = some sampleGen := by
  have h1 := (getImageAtPosition_respects_contentBounds [] sampleObj ⟨1, 0, 0⟩ 10 10).1
    ⟨10, 10⟩ (by decide) (by decide)
    (by norm_num [inRect, sampleObj])
    (by norm_num [inScaledContent, scaledContentBounds, sampleObj])
  have h2 := (getImageAtPosition_respects_contentBounds [] sampleGen ⟨1, 0, 0⟩ 10 10).2.1
    (by decide) (by norm_num [inRect, sampleGen, sampleObj])
  refine ⟨?_, ?_⟩
  · rw [show ([sampleObj] : List PlacedObject) = [] ++ [sampleObj] from rfl, h1.1]
    rfl
  · rw [show ([sampleGen] : List PlacedObject) = [] ++ [sampleGen] from rfl]
    exact h2

/-- C7: deleting the selected id filters it out of the scene model: no
remaining object carries the deleted id (hence hit-testing never returns it);
deleting an id not present leaves the scene unchanged; an id-keyed completion
for an absent id leaves the scene unchanged, in particular a completion for
the just-deleted id is a no-op on the deleted scene. -/
theorem handleDeleteSelected_spec (objs : List PlacedObject) (id : Int) :
    (∀ img ∈ handleDeleteSelected objs id, img.id ≠ id) ∧
    ((∀ img ∈ objs, img.id ≠ id) → handleDeleteSelected objs id = objs) ∧
    (∀ f : PlacedObject → PlacedObject,
      (∀ img ∈ objs, img.id ≠ id) → applyCompletion objs id f = objs) ∧
    (∀ f : PlacedObject → PlacedObject,
      applyCompletion (handleDeleteSelected objs id) id f = handleDeleteSelected objs id) ∧
    (∀ (vt : ViewTransform) (sx sy : ℚ) (r : PlacedObject),
      getImageAtPosition (handleDeleteSelected objs id) vt sx sy = some r → r.id ≠ id) := by
  have hall : ∀ img ∈ handleDeleteSelected objs id, img.id ≠ id := by
    intro img hmem
    have := List.mem_filter.mp hmem
    simpa using this.2
  have hcompl : ∀ (L : List PlacedObject) (f : PlacedObject → PlacedObject),
      (∀ img ∈ L, img.id ≠ id) → applyCompletion L id f = L := by
    intro L f hne
    unfold applyCompletion
    conv_rhs => rw [← List.map_id L]
    apply List.map_congr_left
    intro a ha
    simp [hne a ha]
  refine ⟨hall, ?_, fun f => hcompl objs f, fun f => hcompl _ f hall, ?_⟩
  · intro hne
    unfold handleDeleteSelected
    rw [List.filter_eq_self]
    intro a ha
    simpa using hne a ha
  · intro vt sx sy r hr
    exact hall r (getImageAtPosition_mem hr)

/-- Witness for C7 on a two-object scene: deleting id 1 leaves only the
object with id 2, deleting the absent id 7 changes nothing, and a completion
keyed to the deleted id 1 is a no-op. -/
theorem handleDeleteSelected_spec_witness :
    handleDeleteSelected [sampleObj, sampleGen] 7 = [sampleObj, sampleGen] ∧
    applyCompletion (handleDeleteSelected [sampleObj, sampleGen] 1) 1
      (fun img => { img with isGenerating := false }) =
      handleDeleteSelected [sampleObj, sampleGen] 1 := by
  have h := handleDeleteSelected_spec [sampleObj, sampleGen] 7
  have h1 := handleDeleteSelected_spec [sampleObj, sampleGen] 1
  exact ⟨h.2.1 (by decide), h1.2.2.2.1 _⟩

/-! ## Flip-independence of hit-testing -/

lemma clearFlip_eq_iff (a b : PlacedObject) :
    clearFlip a = clearFlip b ↔
      (a.id = b.id ∧ a.x = b.x ∧ a.y = b.y ∧ a.width = b.width ∧ a.height = b.height ∧
       a.isGenerating = b.isGenerating ∧ a.processedImage = b.processedImage ∧
       a.contentBounds = b.contentBounds ∧ a.showOriginal = b.showOriginal) := by
  cases a
  cases b
  simp [clearFlip, PlacedObject.mk.injEq]

lemma inRect_congr {a b : PlacedObject} (wx wy : ℚ)
    (hx : a.x = b.x) (hy : a.y = b.y) (hw : a.width = b.width) (hh : a.height = b.height) :
    inRect a wx wy ↔ inRect b wx wy := by
  unfold inRect
  rw [hx, hy, hw, hh]

lemma inScaledContent_congr {a b : PlacedObject} (pimg : PImage) (wx wy : ℚ)
    (hx : a.x = b.x) (hy : a.y = b.y) (hw : a.width = b.width) (hh : a.height = b.height)
    (hcb : a.contentBounds = b.contentBounds) :
    inScaledContent a pimg wx wy ↔ inScaledContent b pimg wx wy := by
  unfold inScaledContent scaledContentBounds
  rw [hx, hy, hw, hh, hcb]

lemma hitTestWorld_clearFlip (wx wy : ℚ) (L1 L2 : List PlacedObject)
    (h : List.Forall₂ (fun a b => clearFlip a = clearFlip b) L1 L2) :
    Option.map clearFlip (hitTestWorld wx wy L1) = Option.map clearFlip (hitTestWorld wx wy L2) := by
  induction h with
  | nil => rfl
  | @cons a b l1 l2 hab htail ih =>
      obtain ⟨hid, hx, hy, hw, hh, hg, hpi, hcb, hso⟩ := (clearFlip_eq_iff a b).mp hab
      have hrect := inRect_congr wx wy hx hy hw hh
      by_cases hin : inRect a wx wy
      · have hinb : inRect b wx wy := hrect.mp hin
        cases hgen : a.isGenerating with
        | true =>
            rw [hitTestWorld_cons_generating hin hgen,
              hitTestWorld_cons_generating hinb (hg ▸ hgen)]
            simpa using hab
        | false =>
            cases hpim : a.processedImage with
            | none =>
                rw [hitTestWorld_cons_noimage hin hgen hpim,
                  hitTestWorld_cons_noimage hinb (hg ▸ hgen) (hpi ▸ hpim)]
                exact ih
            | some pimg =>
                have hcont := inScaledContent_congr pimg wx wy hx hy hw hh hcb
                by_cases hins : inScaledContent a pimg wx wy
                · rw [hitTestWorld_cons_inside hin hgen hpim hins,
                    hitTestWorld_cons_inside hinb (hg ▸ hgen) (hpi ▸ hpim) (hcont.mp hins)]
                  simpa using hab
                · rw [hitTestWorld_cons_outside hin hgen hpim hins,
                    hitTestWorld_cons_outside hinb (hg ▸ hgen) (hpi ▸ hpim)
                      (fun hc => hins (hcont.mpr hc))]
                  exact ih
      · rw [hitTestWorld_cons_not_inRect hin,
          hitTestWorld_cons_not_inRect (fun hc => hin (hrect.mpr hc))]
        exact ih

/-- C10: hit-testing is independent of the flippedHorizontally flag: for two
scene states whose objects agree pairwise on every field except possibly
flippedHorizontally (in particular two states differing only in one object's
flag), hit-testing any screen point yields the same result up to that flag —
same hit or miss, same object identity. -/
theorem getImageAtPosition_flip_independent (objs1 objs2 : List PlacedObject)
    (vt : ViewTransform) (sx sy : ℚ)
    (h : List.Forall₂ (fun a b => clearFlip a = clearFlip b) objs1 objs2) :
    Option.map clearFlip (getImageAtPosition objs1 vt sx sy)
      = Option.map clearFlip (getImageAtPosition objs2 vt sx sy) := by
  unfold getImageAtPosition
  exact hitTestWorld_clearFlip _ _ _ _ (List.forall₂_reverse_iff.mpr h)

/-- Witness for C10: a scene with the sample object and the same scene with
that object flipped produce the same hit result (up to the flag) at a point
inside the content bounds. -/
theorem getImageAtPosition_flip_independent_witness :
    Option.map clearFlip (getImageAtPosition [sampleObj] ⟨1, 0, 0⟩ 50 50)
      = Option.map clearFlip
          (getImageAtPosition [{ sampleObj with flippedHorizontally := true }] ⟨1, 0, 0⟩ 50 50) :=
  getImageAtPosition_flip_independent _ _ ⟨1, 0, 0⟩ 50 50
    (List.Forall₂.cons (by decide) List.Forall₂.nil)

/-- Counterexample to C8 as stated: getRemixSuggestions does throw to its
caller on a concrete input — with the API key missing and everything else
fine, the call propagates the error from before the try/catch instead of
returning any list. -/
theorem getRemixSuggestions_counterexample :
    getRemixSuggestions ⟨false, true, SuggestionResponse.parsed (some ["a"])⟩
      = Except.error "API_KEY environment variable not set. Please ensure it's configured." ∧
    ∀ l : List String,
      getRemixSuggestions ⟨false, true, SuggestionResponse.parsed (some ["a"])⟩
        ≠ Except.ok l := by
  refine ⟨rfl, ?_⟩
  intro l h
  simp [getRemixSuggestions] at h

/-- C8 (amended): once the API key check passes and the image file has been
read — the two fallible steps that precede the try/catch and whose errors
propagate to the caller — getRemixSuggestions does not throw: it returns a
list of at most 5 strings, and any failure of the guarded request or parsing
yields the empty list. -/
theorem getRemixSuggestions_spec (env : SuggestionEnv)
    (hkey : env.apiKeyPresent = true) (hfile : env.fileReadOk = true) :
    ∃ l : List String, getRemixSuggestions env = Except.ok l ∧ l.length ≤ 5 ∧
      (env.response = SuggestionResponse.failure → l = []) := by
  unfold getRemixSuggestions
  rw [hkey, hfile]
  simp only [Bool.not_true, Bool.false_eq_true, if_false]
  cases hresp : env.response with
  | failure => exact ⟨[], rfl, by simp, fun _ => rfl⟩
  | parsed prompts =>
      cases prompts with
      | none => exact ⟨[], rfl, by simp, by simp [hresp]⟩
      | some l =>
          refine ⟨if l.length > 0 then l.take 5 else [], rfl, ?_, by simp [hresp]⟩
          split_ifs
          · simp [List.length_take]
          · simp

/-- Witness for C8 (amended): with the key configured, the file read, and the
guarded section failing, the call returns a list — the empty one. -/
theorem getRemixSuggestions_spec_witness :
    ∃ l : List String,
      getRemixSuggestions ⟨true, true, SuggestionResponse.failure⟩ = Except.ok l ∧
      l.length ≤ 5 ∧
      ((⟨true, true, SuggestionResponse.failure⟩ : SuggestionEnv).response
          = SuggestionResponse.failure → l = []) :=
  getRemixSuggestions_spec ⟨true, true, SuggestionResponse.failure⟩ rfl rfl

/-- C9: when the selected id resolves to a non-generating object, an arrow
key rebuilds the scene so that every object with the selected id gets the
selected object's position shifted by MOVE_AMOUNT / scale along the axis of
the key (arrowDX, arrowDY) with every other field kept, and every other
object is untouched. -/
theorem handleArrowMove_spec (objs : List PlacedObject) (id : Int) (scale : ℚ)
    (key : ArrowKey) (sel : PlacedObject)
    (hfind : objs.find? (fun img => img.id == id) = some sel)
    (hgen : sel.isGenerating = false) :
    handleArrowMove objs id scale key =
      objs.map (fun img => if img.id == id
        then { img with x := sel.x + arrowDX key scale, y := sel.y + arrowDY key scale }
        else img) := by
  unfold handleArrowMove
  simp only [hfind, hgen, Bool.false_eq_true, if_false]
  apply List.map_congr_left
  intro a ha
  cases key <;> by_cases hid : (a.id == id) = true <;>
    simp [hid, arrowDX, arrowDY, sub_eq_add_neg]

/-- Witness for C9: moving the sample object right at scale 1. -/
theorem handleArrowMove_spec_witness :
    handleArrowMove [sampleObj] 1 1 ArrowKey.right
      = [sampleObj].map (fun img => if img.id == 1
          then { img with x := sampleObj.x + arrowDX ArrowKey.right 1,
                          y := sampleObj.y + arrowDY ArrowKey.right 1 }
          else img) :=
  handleArrowMove_spec [sampleObj] 1 1 ArrowKey.right sampleObj (by decide) (by decide)

end BananaWorld
